import Mathlib

/-!
Shallow embedding of `liquidator/src/websocket_source.rs` (mango-v4): the
websocket subscription multiplexer, session loop, reconnect supervisor,
chain-data normalization and bootstrap waiter, together with a model of the
external `solana_sdk::pubkey::Pubkey` base58 string conversions that the
account-update normalization depends on.
-/

namespace WebsocketSource

/-- Alphabet of the base58 encoding used by the external bs58 crate
(`solana_sdk::pubkey::Pubkey` FromStr/Display): digits and letters
without 0, O, I, l. -/
def base58Alphabet : List Char :=
  ['1', '2', '3', '4', '5', '6', '7', '8', '9',
   'A', 'B', 'C', 'D', 'E', 'F', 'G', 'H', 'J', 'K', 'L', 'M', 'N',
   'P', 'Q', 'R', 'S', 'T', 'U', 'V', 'W', 'X', 'Y', 'Z',
   'a', 'b', 'c', 'd', 'e', 'f', 'g', 'h', 'i', 'j', 'k', 'm', 'n',
   'o', 'p', 'q', 'r', 's', 't', 'u', 'v', 'w', 'x', 'y', 'z']

/-- Index of a character in a list of characters (first occurrence). -/
def indexInList (c : Char) : List Char → Option Nat
  | [] => none
  | a :: rest => if a = c then some 0 else (indexInList c rest).map (· + 1)

/-- Base58 digit value of a character, if the character is in the alphabet. -/
def charToDigit58 (c : Char) : Option Nat :=
  indexInList c base58Alphabet

/-- Character of a base58 digit value (digit assumed below 58). -/
def digitToChar58 (d : Nat) : Char :=
  base58Alphabet.getD d '1'

/-- Value of a big-endian digit string in base b. -/
def digitsVal (b : Nat) (ds : List Nat) : Nat :=
  ds.foldl (fun acc d => acc * b + d) 0

/-- Little-endian base-b digits of n, fuel-based so that it is structurally
recursive and computes by kernel reduction; agrees with Nat.digits when
fuel is at least n (see natToDigits_eq_digits). -/
def natToDigits (b : Nat) : Nat → Nat → List Nat
  | 0, _ => []
  | fuel + 1, n => if n = 0 then [] else n % b :: natToDigits b fuel (n / b)

/-- Minimal big-endian base-b digits of n. -/
def natDigitsBE (b n : Nat) : List Nat :=
  (natToDigits b n n).reverse

/-- Number of leading occurrences of z at the front of a list. -/
def leadCount (z : Nat) : List Nat → Nat
  | [] => 0
  | d :: rest => if d = z then leadCount z rest + 1 else 0

/-- Mapping a character string to its base58 digit values; none when some
character is outside the alphabet. -/
def charsToDigits : List Char → Option (List Nat)
  | [] => some []
  | c :: rest =>
    match charToDigit58 c, charsToDigits rest with
    | some d, some ds => some (d :: ds)
    | _, _ => none

/-- Base58 encoding of a byte string (model of bs58 encode): one leading
alphabet-first character per leading zero byte, then the minimal base58
digits of the value of the byte string. -/
def encode58 (bytes : List Nat) : List Char :=
  List.replicate (leadCount 0 bytes) '1'
    ++ (natDigitsBE 58 (digitsVal 256 bytes)).map digitToChar58

/-- Base58 decoding of a character string (model of bs58 decode): fails when
a character is outside the alphabet; otherwise one leading zero byte per
leading alphabet-first character, then the minimal base256 digits of the
value of the digit string. -/
def decode58 (s : List Char) : Option (List Nat) :=
  (charsToDigits s).map fun ds =>
    List.replicate (leadCount 0 ds) 0 ++ natDigitsBE 256 (digitsVal 58 ds)

/-- Model of `solana_sdk::pubkey::Pubkey`: a 32-byte identity. The byte
string is kept as a list; validity (length 32, bytes below 256) appears as a
hypothesis where needed. -/
structure Pubkey where
  bytes : List Nat
deriving DecidableEq

/-- Maximum length of a base58 rendering of a 32-byte pubkey
(`solana_sdk` MAX_BASE58_LEN). -/
def MAX_BASE58_LEN : Nat := 44

/-- Model of `Pubkey::from_str`: reject strings longer than 44, decode
base58, reject decoded byte strings whose length is not 32. -/
def Pubkey.from_str (s : List Char) : Except (List Char) Pubkey :=
  if s.length > MAX_BASE58_LEN then .error "String is the wrong size".toList
  else
    match decode58 s with
    | none => .error "Invalid Base58 string".toList
    | some bytes =>
      if bytes.length = 32 then .ok ⟨bytes⟩
      else .error "String is the wrong size".toList

/-- Model of `Pubkey::to_string` (Display): base58 rendering of the bytes. -/
def Pubkey.to_string (p : Pubkey) : List Char :=
  encode58 p.bytes

/-- Model of `Pubkey::to_bytes`. -/
def Pubkey.to_bytes (p : Pubkey) : List Nat :=
  p.bytes

/-- Decoded account state (`solana_sdk::account::AccountSharedData`), opaque
to this module: the session loop and the chain-data sink only move it around. -/
structure AccountSharedData where
  raw : List Nat
deriving DecidableEq

/-- Modelled from the spec: the external account payload
(`solana_account_decoder::UiAccount`, whose encoding is negotiated out of
scope) is represented by the outcome of its decode method: some decoded
state, or none when the payload cannot be decoded. -/
structure UiAccount where
  decoded : Option AccountSharedData
deriving DecidableEq

/-- Model of `UiAccount::decode`. -/
def UiAccount.decode (u : UiAccount) : Option AccountSharedData :=
  u.decoded

/-- Model of `solana_client::rpc_response::RpcResponseContext`. -/
structure RpcResponseContext where
  slot : Nat
  api_version : Option (List Char)
deriving DecidableEq

/-- Model of `solana_client::rpc_response::Response`. -/
structure Response (α : Type) where
  context : RpcResponseContext
  value : α
deriving DecidableEq

/-- Model of `solana_client::rpc_response::RpcKeyedAccount`. -/
structure RpcKeyedAccount where
  pubkey : List Char
  account : UiAccount
deriving DecidableEq

/-- Model of `solana_client::rpc_response::SlotUpdate` with all its raw
subtypes; the stats payload of Frozen and the error payload of Dead are
carried opaquely. -/
structure SlotTransactionStats where
  num_transaction_entries : Nat
  num_successful_transactions : Nat
  num_failed_transactions : Nat
  max_transactions_per_entry : Nat
deriving DecidableEq

inductive SlotUpdate
  | FirstShredReceived (slot : Nat) (timestamp : Nat)
  | Completed (slot : Nat) (timestamp : Nat)
  | CreatedBank (slot : Nat) (parent : Nat) (timestamp : Nat)
  | Frozen (slot : Nat) (timestamp : Nat) (stats : SlotTransactionStats)
  | Dead (slot : Nat) (timestamp : Nat) (err : List Char)
  | OptimisticConfirmation (slot : Nat) (timestamp : Nat)
  | Root (slot : Nat) (timestamp : Nat)
deriving DecidableEq

/-- websocket_source.rs: the AccountUpdate event. -/
structure AccountUpdate where
  pubkey : Pubkey
  slot : Nat
  account : AccountSharedData
deriving DecidableEq

/-- websocket_source.rs: `AccountUpdate::from_rpc`. Fails when the pubkey
string does not parse or the account payload does not decode. -/
def AccountUpdate.from_rpc (rpc : Response RpcKeyedAccount) :
    Except (List Char) AccountUpdate :=
  match Pubkey.from_str rpc.value.pubkey with
  | .error e => .error e
  | .ok pubkey =>
    match rpc.value.account.decode with
    | none => .error "could not decode account".toList
    | some account => .ok ⟨pubkey, rpc.context.slot, account⟩

/-- websocket_source.rs: the Message union forwarded on the channel. -/
inductive Message
  | Account (u : AccountUpdate)
  | Slot (s : SlotUpdate)
deriving DecidableEq

/-- websocket_source.rs: the Config structure. -/
structure Config where
  rpc_ws_url : List Char
  mango_program : Pubkey
  serum_program : Pubkey
  open_orders_authority : Pubkey

/-- Model of `solana_client::rpc_filter::MemcmpEncodedBytes`. -/
inductive MemcmpEncodedBytes
  | Base58 (s : List Char)
  | Bytes (b : List Nat)
deriving DecidableEq

/-- Model of `solana_client::rpc_filter::Memcmp`. -/
structure Memcmp where
  offset : Nat
  bytes : MemcmpEncodedBytes
  encoding : Option Unit
deriving DecidableEq

/-- Model of `solana_client::rpc_filter::RpcFilterType`. -/
inductive RpcFilterType
  | DataSize (n : Nat)
  | Memcmp (m : Memcmp)
deriving DecidableEq

/-- Model of `solana_account_decoder::UiAccountEncoding`. -/
inductive UiAccountEncoding
  | Binary
  | Base58
  | Base64
  | JsonParsed
  | Base64Zstd
deriving DecidableEq

/-- Model of `solana_sdk::commitment_config::CommitmentLevel` (the levels
relevant here). -/
inductive CommitmentLevel
  | Processed
  | Confirmed
  | Finalized
deriving DecidableEq

/-- Model of `solana_client::rpc_config::RpcAccountInfoConfig`. -/
structure RpcAccountInfoConfig where
  encoding : Option UiAccountEncoding
  commitment : Option CommitmentLevel
  data_slice : Option Nat
  min_context_slot : Option Nat
deriving DecidableEq

/-- Model of `solana_client::rpc_config::RpcProgramAccountsConfig`. -/
structure RpcProgramAccountsConfig where
  filters : Option (List RpcFilterType)
  with_context : Option Bool
  account_config : RpcAccountInfoConfig
deriving DecidableEq

/-- websocket_source.rs feed_data: the account_info_config local. -/
def account_info_config : RpcAccountInfoConfig :=
  { encoding := some .Base64
    commitment := some .Processed
    data_slice := none
    min_context_slot := none }

/-- websocket_source.rs feed_data: the all_accounts_config local. -/
def all_accounts_config : RpcProgramAccountsConfig :=
  { filters := none
    with_context := some true
    account_config := account_info_config }

/-- websocket_source.rs feed_data: the open_orders_accounts_config local,
filtering for OpenOrders accounts of size 3228 whose tag bytes at offset 0
match the serum OpenOrders constant and whose owner field at offset 45
matches the configured open_orders_authority. -/
def open_orders_accounts_config (config : Config) : RpcProgramAccountsConfig :=
  { filters := some
      [ .DataSize 3228,
        .Memcmp
          { offset := 0
            bytes := .Base58 "AcUQf4PGf6fCHGwmpB".toList
            encoding := none },
        .Memcmp
          { offset := 45
            bytes := .Bytes config.open_orders_authority.to_bytes
            encoding := none } ]
    with_context := some true
    account_config := account_info_config }

/-- Model of `client::chain_data::SlotStatus`. -/
inductive SlotStatus
  | Rooted
  | Confirmed
  | Processed
deriving DecidableEq

/-- Model of `client::chain_data::SlotData`. -/
structure SlotData where
  slot : Nat
  parent : Option Nat
  status : SlotStatus
  chain : Nat
deriving DecidableEq

/-- Model of `client::chain_data::AccountAndSlot`. -/
structure AccountAndSlot where
  slot : Nat
  account : AccountSharedData
deriving DecidableEq

/-- Modelled from the spec: the downstream chain-data store
(`client::chain_data::ChainData`, outside this module) is treated as a pure
sink with the two mutation entry points apply_account/apply_slot; it is
represented by the journal of the calls made to those entry points, so that
"the chain state is left unchanged" is expressible as equality of journals. -/
structure ChainData where
  accountWrites : List (Pubkey × AccountAndSlot)
  slotWrites : List SlotData
deriving DecidableEq

/-- Modelled from the spec: the `ChainData::update_account` entry point as a
sink (records the call). -/
def ChainData.update_account (c : ChainData) (pk : Pubkey)
    (a : AccountAndSlot) : ChainData :=
  { c with accountWrites := c.accountWrites ++ [(pk, a)] }

/-- Modelled from the spec: the `ChainData::update_slot` entry point as a
sink (records the call). -/
def ChainData.update_slot (c : ChainData) (s : SlotData) : ChainData :=
  { c with slotWrites := c.slotWrites ++ [s] }

/-- websocket_source.rs: `update_chain_data`, the normalization of a Message
into chain-data store mutations. -/
def update_chain_data (chain : ChainData) (message : Message) : ChainData :=
  match message with
  | .Account account_write =>
    chain.update_account account_write.pubkey
      { slot := account_write.slot, account := account_write.account }
  | .Slot slot_update =>
    let norm : Option SlotData :=
      match slot_update with
      | .CreatedBank slot parent _ =>
        some { slot := slot, parent := some parent,
               status := .Processed, chain := 0 }
      | .OptimisticConfirmation slot _ =>
        some { slot := slot, parent := none,
               status := .Confirmed, chain := 0 }
      | .Root slot _ =>
        some { slot := slot, parent := none,
               status := .Rooted, chain := 0 }
      | _ => none
    match norm with
    | some update => chain.update_slot update
    | none => chain

/-- websocket_source.rs feed_data: the idle cutoff, in seconds, of the
tokio sleep arm of the select. -/
def websocketTimeoutSecs : Nat := 60

/-- One resolution of the select in the streaming loop of feed_data: which
subscription group produced a ready item (none meaning that group's stream
closed, an error meaning the stream yielded a transport error), or the
idle-timeout sleep fired. Oracle items are keyed by the subscribed oracle
address, as in the StreamMap. -/
inductive FeedEvent
  | mango (m : Option (Except (List Char) (Response RpcKeyedAccount)))
  | oracle (m : Option (Pubkey × Except (List Char) (Response UiAccount)))
  | openOrders (m : Option (Except (List Char) (Response RpcKeyedAccount)))
  | slot (m : Option (Except (List Char) SlotUpdate))
  | idleTimeout

/-- Outcome of one iteration of the streaming loop: forward one Message and
continue, or leave the loop with a result. -/
inductive FeedStep
  | emit (m : Message)
  | terminate (r : Except (List Char) Unit)

/-- websocket_source.rs feed_data: one iteration of the streaming select
loop. Closure of any group returns Ok, a transport error or a normalization
failure returns Err, the idle timeout returns Ok; otherwise the normalized
Message is sent. The oracle arm rebuilds the keyed payload with the
subscribed oracle address rendered as the account key. -/
def feed_data_step (ev : FeedEvent) : FeedStep :=
  match ev with
  | .mango none => .terminate (.ok ())
  | .mango (some (.error e)) => .terminate (.error e)
  | .mango (some (.ok response)) =>
    match AccountUpdate.from_rpc response with
    | .error e => .terminate (.error e)
    | .ok u => .emit (.Account u)
  | .oracle none => .terminate (.ok ())
  | .oracle (some (_, .error e)) => .terminate (.error e)
  | .oracle (some (key, .ok response)) =>
    match AccountUpdate.from_rpc
        { context := { slot := response.context.slot, api_version := none }
          value := { pubkey := key.to_string, account := response.value } } with
    | .error e => .terminate (.error e)
    | .ok u => .emit (.Account u)
  | .openOrders none => .terminate (.ok ())
  | .openOrders (some (.error e)) => .terminate (.error e)
  | .openOrders (some (.ok response)) =>
    match AccountUpdate.from_rpc response with
    | .error e => .terminate (.error e)
    | .ok u => .emit (.Account u)
  | .slot none => .terminate (.ok ())
  | .slot (some (.error e)) => .terminate (.error e)
  | .slot (some (.ok data)) => .emit (.Slot data)
  | .idleTimeout => .terminate (.ok ())

/-- State of one session of the streaming loop after consuming a list of
select resolutions: still looping, or left the loop with a result. -/
inductive SessionOutcome
  | running
  | terminated (r : Except (List Char) Unit)

/-- websocket_source.rs feed_data: the streaming loop over a list of select
resolutions. Returns the Messages sent on the outbound channel, in order,
and the state of the loop afterwards; events after a terminating iteration
belong to no session and are not processed. -/
def feed_data_run : List FeedEvent → List Message × SessionOutcome
  | [] => ([], .running)
  | ev :: rest =>
    match feed_data_step ev with
    | .emit m =>
      let out := feed_data_run rest
      (m :: out.1, out.2)
    | .terminate r => ([], .terminated r)

/-- websocket_source.rs start: state of the supervisor task, counting
completed feed_data invocations; a stopped state exists in the model only to
express that the loop never reaches one. -/
inductive SupervisorState
  | running (attempts : Nat)
  | stopped (attempts : Nat)
deriving DecidableEq

/-- websocket_source.rs start: one turn of the supervisor loop body: awaits
feed_data, discards its result, loops. -/
def start_step (outcome : Except (List Char) Unit) :
    SupervisorState → SupervisorState
  | .running n =>
    match outcome with
    | .ok _ => .running (n + 1)
    | .error _ => .running (n + 1)
  | .stopped n => .stopped n

/-- websocket_source.rs start: the supervisor loop after n feed_data
terminations, where outcomes gives the result of the i-th invocation. -/
def start_run (outcomes : Nat → Except (List Char) Unit) : Nat → SupervisorState
  | 0 => .running 0
  | n + 1 => start_step (outcomes n) (start_run outcomes n)

/-- Bootstrap waiter errors: the bail on deadline expiry, or the
context-wrapped channel receive error. -/
inductive GetSlotError
  | timeoutExpired
  | channelClosed
deriving DecidableEq

/-- One completion of the channel receive in get_next_create_bank_slot: a
message, or the closed-channel error. -/
inductive RecvOutcome
  | msg (m : Message)
  | closed
deriving DecidableEq

/-- websocket_source.rs: `get_next_create_bank_slot` over an abstract
timeline. The channel is modelled by the list of receive completions, each
tagged with the elapsed time (same unit as timeout) at which it completes;
t is the elapsed time at the top of the loop (0 at invocation). A completion
after the deadline is never observed: the bounded receive times out instead
and the next loop iteration bails, as does an exhausted list. The deadline
is measured from invocation, so intervening messages never extend it. -/
def get_next_create_bank_slot (timeout : Nat) :
    Nat → List (Nat × RecvOutcome) → Except GetSlotError Nat
  | t, events =>
    if timeout < t then .error .timeoutExpired
    else
      match events with
      | [] => .error .timeoutExpired
      | (a, out) :: rest =>
        if timeout < a then .error .timeoutExpired
        else
          match out with
          | .closed => .error .channelClosed
          | .msg m =>
            match m with
            | .Slot (.CreatedBank slot _ _) => .ok slot
            | _ => get_next_create_bank_slot timeout a rest

/-! Lemmas about the base58 character alphabet. -/

theorem indexInList_getD {l : List Char} {c : Char} {d : Nat} (x : Char)
    (h : indexInList c l = some d) : l.getD d x = c := by
  induction l generalizing d with
  | nil => simp [indexInList] at h
  | cons a rest ih =>
    by_cases hac : a = c
    · simp [indexInList, hac] at h
      subst h
      simpa [List.getD] using hac
    · simp [indexInList, hac] at h
      obtain ⟨d0, hd0, rfl⟩ := h
      simpa [List.getD] using ih hd0

theorem indexInList_lt_length {l : List Char} {c : Char} {d : Nat}
    (h : indexInList c l = some d) : d < l.length := by
  induction l generalizing d with
  | nil => simp [indexInList] at h
  | cons a rest ih =>
    by_cases hac : a = c
    · simp [indexInList, hac] at h
      simp only [List.length_cons]
      omega
    · simp [indexInList, hac] at h
      obtain ⟨d0, hd0, rfl⟩ := h
      have := ih hd0
      simp only [List.length_cons]
      omega

theorem charToDigit58_lt {c : Char} {d : Nat} (h : charToDigit58 c = some d) :
    d < 58 :=
  indexInList_lt_length h

theorem digitToChar58_charToDigit58 {c : Char} {d : Nat}
    (h : charToDigit58 c = some d) : digitToChar58 d = c :=
  indexInList_getD '1' h

theorem charToDigit58_digitToChar58 :
    ∀ d, d < 58 → charToDigit58 (digitToChar58 d) = some d := by
  decide

theorem digitToChar58_zero : digitToChar58 0 = '1' := rfl

theorem charToDigit58_one : charToDigit58 '1' = some 0 := rfl

/-! Lemmas about digit strings and their values. -/

theorem foldl_mul_add (b : Nat) :
    ∀ (L : List Nat) (acc : Nat),
      L.foldl (fun a d => a * b + d) acc =
        acc * b ^ L.length + Nat.ofDigits b L.reverse := by
  intro L
  induction L with
  | nil => simp [Nat.ofDigits]
  | cons d R ih =>
    intro acc
    have happ : Nat.ofDigits b (R.reverse ++ [d]) =
        Nat.ofDigits b R.reverse + b ^ R.length * d := by
      rw [Nat.ofDigits_append]
      simp [Nat.ofDigits]
    calc (d :: R).foldl (fun a d => a * b + d) acc
        = R.foldl (fun a d => a * b + d) (acc * b + d) := by simp
      _ = (acc * b + d) * b ^ R.length + Nat.ofDigits b R.reverse := ih _
      _ = acc * b ^ (R.length + 1) +
            (Nat.ofDigits b R.reverse + b ^ R.length * d) := by ring
      _ = acc * b ^ (d :: R).length + Nat.ofDigits b (d :: R).reverse := by
            rw [List.reverse_cons, happ, List.length_cons, Nat.pow_succ]

theorem digitsVal_eq_ofDigits (b : Nat) (L : List Nat) :
    digitsVal b L = Nat.ofDigits b L.reverse := by
  simpa [digitsVal] using foldl_mul_add b L 0

theorem natToDigits_eq_digits {b : Nat} (hb : 2 ≤ b) :
    ∀ (fuel n : Nat), n ≤ fuel → natToDigits b fuel n = Nat.digits b n := by
  intro fuel
  induction fuel with
  | zero =>
    intro n hn
    have : n = 0 := by omega
    subst this
    simp [natToDigits]
  | succ f ih =>
    intro n hn
    by_cases h0 : n = 0
    · subst h0
      simp [natToDigits]
    · have hpos : 0 < n := Nat.pos_of_ne_zero h0
      have hdiv : n / b < n := Nat.div_lt_self hpos (by omega)
      rw [natToDigits, if_neg h0, ih (n / b) (by omega),
        Nat.digits_def' (by omega : 1 < b) hpos]

theorem natDigitsBE_eq {b : Nat} (hb : 2 ≤ b) (n : Nat) :
    natDigitsBE b n = (Nat.digits b n).reverse := by
  rw [natDigitsBE, natToDigits_eq_digits hb n n (Nat.le_refl n)]

theorem digitsVal_natDigitsBE {b : Nat} (hb : 2 ≤ b) (n : Nat) :
    digitsVal b (natDigitsBE b n) = n := by
  rw [digitsVal_eq_ofDigits, natDigitsBE_eq hb, List.reverse_reverse,
    Nat.ofDigits_digits]

theorem natDigitsBE_mem_lt {b : Nat} (hb : 2 ≤ b) {n d : Nat}
    (h : d ∈ natDigitsBE b n) : d < b := by
  rw [natDigitsBE_eq hb, List.mem_reverse] at h
  exact Nat.digits_lt_base (by omega) h

theorem natDigitsBE_head_ne_zero {b : Nat} (hb : 2 ≤ b) (n : Nat) :
    (natDigitsBE b n).head? ≠ some 0 := by
  rw [natDigitsBE_eq hb]
  by_cases h0 : n = 0
  · subst h0
    simp
  · have hne : Nat.digits b n ≠ [] := Nat.digits_ne_nil_iff_ne_zero.mpr h0
    rw [List.head?_reverse]
    rw [List.getLast?_eq_getLast_of_ne_nil hne]
    intro hcontra
    exact Nat.getLast_digit_ne_zero b h0 (by injection hcontra)

theorem natDigitsBE_of_digitsVal {b : Nat} (hb : 2 ≤ b) {D : List Nat}
    (hlt : ∀ d ∈ D, d < b) (hhead : D.head? ≠ some 0) :
    natDigitsBE b (digitsVal b D) = D := by
  rcases D.eq_nil_or_concat.symm.imp_left id with hD | hD
  case inr =>
    subst hD
    simp [digitsVal, natDigitsBE, natToDigits]
  case inl =>
    have hne : D ≠ [] := by
      rcases hD with ⟨L, x, rfl⟩
      simp
    rw [digitsVal_eq_ofDigits, natDigitsBE_eq hb]
    have hrev : Nat.digits b (Nat.ofDigits b D.reverse) = D.reverse := by
      apply Nat.digits_ofDigits b (by omega)
      · intro l hl
        exact hlt l (List.mem_reverse.mp hl)
      · intro hrne
        have hgl : D.reverse.getLast? = D.head? := List.getLast?_reverse D
        rw [List.getLast?_eq_getLast_of_ne_nil hrne] at hgl
        intro hzero
        rw [hzero] at hgl
        exact hhead hgl.symm
    rw [hrev, List.reverse_reverse]

/-! Lemmas about leading-zero runs. -/

theorem leadCount_replicate_append (z k : Nat) (L : List Nat) :
    leadCount z (List.replicate k z ++ L) = k + leadCount z L := by
  induction k with
  | zero => simp
  | succ n ih => simp [List.replicate_succ, leadCount, ih]; omega

theorem leadCount_of_head_ne {z : Nat} {L : List Nat}
    (h : L.head? ≠ some z) : leadCount z L = 0 := by
  cases L with
  | nil => rfl
  | cons d rest =>
    have : d ≠ z := by
      intro hd
      exact h (by simp [hd])
    simp [leadCount, this]

theorem leadCount_split (z : Nat) (L : List Nat) :
    L = List.replicate (leadCount z L) z ++ L.drop (leadCount z L) ∧
      (L.drop (leadCount z L)).head? ≠ some z := by
  induction L with
  | nil => simp [leadCount]
  | cons d rest ih =>
    by_cases hd : d = z
    · subst hd
      have hcount : leadCount d (d :: rest) = leadCount d rest + 1 := by
        simp [leadCount]
      constructor
      · rw [hcount]
        simpa [List.replicate_succ] using ih.1
      · rw [hcount]
        simpa using ih.2
    · have hcount : leadCount z (d :: rest) = 0 := by
        simp [leadCount, hd]
      rw [hcount]
      simpa using hd

theorem leadCount_le_length (z : Nat) (L : List Nat) :
    leadCount z L ≤ L.length := by
  induction L with
  | nil => simp [leadCount]
  | cons d rest ih =>
    by_cases hd : d = z
    · simp [leadCount, hd]
      omega
    · simp [leadCount, hd]

theorem digitsVal_replicate_append (b z : Nat) (L : List Nat) :
    digitsVal b (List.replicate z 0 ++ L) = digitsVal b L := by
  induction z with
  | zero => simp
  | succ n ih => simpa [digitsVal, List.replicate_succ] using ih

/-! Lemmas about charsToDigits. -/

theorem charsToDigits_append {s t : List Char} {ds dt : List Nat}
    (hs : charsToDigits s = some ds) (ht : charsToDigits t = some dt) :
    charsToDigits (s ++ t) = some (ds ++ dt) := by
  induction s generalizing ds with
  | nil =>
    simp [charsToDigits] at hs
    subst hs
    simpa using ht
  | cons c rest ih =>
    simp only [charsToDigits] at hs
    rcases hc : charToDigit58 c with _ | d
    · rw [hc] at hs
      exact absurd hs (by simp)
    · rw [hc] at hs
      rcases hrest : charsToDigits rest with _ | drest
      · rw [hrest] at hs
        exact absurd hs (by simp)
      · rw [hrest] at hs
        simp at hs
        subst hs
        simp only [List.cons_append, charsToDigits, hc]
        have h2 : charsToDigits (rest.append t) = some (drest ++ dt) := ih hrest
        rw [h2]

theorem charsToDigits_replicate_one (z : Nat) :
    charsToDigits (List.replicate z '1') = some (List.replicate z 0) := by
  induction z with
  | zero => rfl
  | succ n ih => simp [List.replicate_succ, charsToDigits, charToDigit58_one, ih]

theorem charsToDigits_map_digitToChar {ds : List Nat}
    (h : ∀ d ∈ ds, d < 58) :
    charsToDigits (ds.map digitToChar58) = some ds := by
  induction ds with
  | nil => rfl
  | cons d rest ih =>
    have hd : d < 58 := h d (by simp)
    have hrest : ∀ x ∈ rest, x < 58 := fun x hx => h x (by simp [hx])
    simp [charsToDigits, charToDigit58_digitToChar58 d hd, ih hrest]

theorem charsToDigits_inv {s : List Char} {ds : List Nat}
    (h : charsToDigits s = some ds) :
    s = ds.map digitToChar58 ∧ ∀ d ∈ ds, d < 58 := by
  induction s generalizing ds with
  | nil =>
    simp [charsToDigits] at h
    subst h
    simp
  | cons c rest ih =>
    simp only [charsToDigits] at h
    rcases hc : charToDigit58 c with _ | d
    · rw [hc] at h
      exact absurd h (by simp)
    · rw [hc] at h
      rcases hrest : charsToDigits rest with _ | drest
      · rw [hrest] at h
        exact absurd h (by simp)
      · rw [hrest] at h
        simp at h
        subst h
        obtain ⟨hmap, hlt⟩ := ih hrest
        refine ⟨?_, ?_⟩
        · simp [← hmap, digitToChar58_charToDigit58 hc]
        · intro x hx
          rcases List.mem_cons.mp hx with hx | hx
          · subst hx
            exact charToDigit58_lt hc
          · exact hlt x hx

/-! The two base58 round trips. -/

theorem decode58_encode58 {bytes : List Nat} (hlt : ∀ x ∈ bytes, x < 256) :
    decode58 (encode58 bytes) = some bytes := by
  set z := leadCount 0 bytes with hz
  obtain ⟨hsplit, hhead⟩ := leadCount_split 0 bytes
  set rest := bytes.drop z with hrest
  set v := digitsVal 256 bytes with hv
  have hvrest : v = digitsVal 256 rest := by
    rw [hv]
    conv_lhs => rw [hsplit]
    rw [digitsVal_replicate_append]
  have hD58lt : ∀ d ∈ natDigitsBE 58 v, d < 58 := fun d hd =>
    natDigitsBE_mem_lt (by omega) hd
  have hchars :
      charsToDigits (encode58 bytes) =
        some (List.replicate z 0 ++ natDigitsBE 58 v) := by
    rw [encode58, ← hz, ← hv]
    exact charsToDigits_append (charsToDigits_replicate_one z)
      (charsToDigits_map_digitToChar hD58lt)
  rw [decode58, hchars]
  simp only [Option.map_some']
  have hlead : leadCount 0 (List.replicate z 0 ++ natDigitsBE 58 v) = z := by
    rw [leadCount_replicate_append,
      leadCount_of_head_ne (natDigitsBE_head_ne_zero (by omega) v)]
    omega
  have hval :
      digitsVal 58 (List.replicate z 0 ++ natDigitsBE 58 v) = v := by
    rw [digitsVal_replicate_append, digitsVal_natDigitsBE (by omega)]
  rw [hlead, hval]
  have hrestlt : ∀ x ∈ rest, x < 256 := fun x hx =>
    hlt x (by rw [hrest] at hx; exact List.mem_of_mem_drop hx)
  have hback : natDigitsBE 256 v = rest := by
    rw [hvrest]
    exact natDigitsBE_of_digitsVal (by omega) hrestlt hhead
  rw [hback, ← hsplit]

theorem encode58_decode58 {s : List Char} {bytes : List Nat}
    (h : decode58 s = some bytes) : encode58 bytes = s := by
  rw [decode58] at h
  rcases hds : charsToDigits s with _ | ds
  · rw [hds] at h
    exact absurd h (by simp)
  · rw [hds] at h
    simp only [Option.map_some', Option.some.injEq] at h
    obtain ⟨hmap, hdslt⟩ := charsToDigits_inv hds
    set z := leadCount 0 ds with hz
    obtain ⟨hsplit, hhead⟩ := leadCount_split 0 ds
    set dsr := ds.drop z with hdsr
    set v := digitsVal 58 ds with hv
    have hvdsr : v = digitsVal 58 dsr := by
      rw [hv]
      conv_lhs => rw [hsplit]
      rw [digitsVal_replicate_append]
    have hlead : leadCount 0 bytes = z := by
      rw [← h, leadCount_replicate_append,
        leadCount_of_head_ne (natDigitsBE_head_ne_zero (by omega) v)]
      omega
    have hval : digitsVal 256 bytes = v := by
      rw [← h, digitsVal_replicate_append, digitsVal_natDigitsBE (by omega)]
    have hdsrlt : ∀ x ∈ dsr, x < 58 := fun x hx =>
      hdslt x (by rw [hdsr] at hx; exact List.mem_of_mem_drop hx)
    have hback : natDigitsBE 58 v = dsr := by
      rw [hvdsr]
      exact natDigitsBE_of_digitsVal (by omega) hdsrlt hhead
    rw [encode58, hlead, hval, hback]
    rw [hmap]
    conv_rhs => rw [hsplit]
    rw [List.map_append, List.map_replicate, digitToChar58_zero]

/-! Round trips of the pubkey string conversions. -/

theorem digitsVal_lt_pow {b : Nat} (hb : 2 ≤ b) {L : List Nat}
    (h : ∀ x ∈ L, x < b) : digitsVal b L < b ^ L.length := by
  rw [digitsVal_eq_ofDigits, ← List.length_reverse L]
  exact Nat.ofDigits_lt_base_pow_length (by omega)
    fun x hx => h x (List.mem_reverse.mp hx)

theorem pow_256_le_pow_58 : ∀ k, k ≤ 32 → 256 ^ k ≤ 58 ^ (k + 12) := by
  intro k hk
  interval_cases k <;> norm_num

theorem natDigitsBE_length_le {b : Nat} (hb : 2 ≤ b) {n k : Nat}
    (h : n < b ^ k) : (natDigitsBE b n).length ≤ k := by
  rw [natDigitsBE_eq hb, List.length_reverse]
  by_cases h0 : n = 0
  · subst h0
    simp
  · rw [Nat.digits_len b n (by omega) h0]
    have := Nat.log_lt_of_lt_pow h0 h
    omega

theorem encode58_length_le {bytes : List Nat} (h32 : bytes.length = 32)
    (hlt : ∀ x ∈ bytes, x < 256) : (encode58 bytes).length ≤ 44 := by
  set z := leadCount 0 bytes with hz
  have hzle : z ≤ 32 := by
    rw [hz, ← h32]
    exact leadCount_le_length 0 bytes
  obtain ⟨hsplit, _⟩ := leadCount_split 0 bytes
  set rest := bytes.drop z with hrest
  have hrestlen : rest.length = 32 - z := by
    rw [hrest, List.length_drop, h32]
  have hvrest : digitsVal 256 bytes = digitsVal 256 rest := by
    conv_lhs => rw [hsplit]
    rw [digitsVal_replicate_append]
  have hvlt : digitsVal 256 bytes < 58 ^ (44 - z) := by
    rw [hvrest]
    calc digitsVal 256 rest < 256 ^ rest.length :=
          digitsVal_lt_pow (by omega)
            fun x hx =>
              hlt x (by rw [hrest] at hx; exact List.mem_of_mem_drop hx)
      _ = 256 ^ (32 - z) := by rw [hrestlen]
      _ ≤ 58 ^ ((32 - z) + 12) := pow_256_le_pow_58 (32 - z) (by omega)
      _ = 58 ^ (44 - z) := by congr 1; omega
  have hdlen : (natDigitsBE 58 (digitsVal 256 bytes)).length ≤ 44 - z :=
    natDigitsBE_length_le (by omega) hvlt
  rw [encode58, List.length_append, List.length_replicate, List.length_map,
    ← hz]
  omega

theorem to_string_of_from_str {s : List Char} {p : Pubkey}
    (h : Pubkey.from_str s = .ok p) : p.to_string = s := by
  by_cases hl : s.length > MAX_BASE58_LEN
  · simp [Pubkey.from_str, hl] at h
  · rcases hdec : decode58 s with _ | bytes
    · simp [Pubkey.from_str, hl, hdec] at h
    · by_cases hlen : bytes.length = 32
      · simp [Pubkey.from_str, hl, hdec, hlen] at h
        have hb : p.bytes = bytes := by
          rw [← h]
        rw [Pubkey.to_string, hb]
        exact encode58_decode58 hdec
      · simp [Pubkey.from_str, hl, hdec, hlen] at h

theorem from_str_of_to_string {p : Pubkey} (h32 : p.bytes.length = 32)
    (hlt : ∀ x ∈ p.bytes, x < 256) : Pubkey.from_str p.to_string = .ok p := by
  have hdec : decode58 p.to_string = some p.bytes :=
    decode58_encode58 hlt
  have hlen : p.to_string.length ≤ 44 := encode58_length_le h32 hlt
  rw [Pubkey.from_str, if_neg (by simp [MAX_BASE58_LEN]; omega), hdec]
  simp [h32]

/-! Lemmas about the streaming loop. -/

theorem feed_data_run_append {xs : List FeedEvent} {ms : List Message}
    (h : feed_data_run xs = (ms, .running)) (ys : List FeedEvent) :
    feed_data_run (xs ++ ys) =
      (ms ++ (feed_data_run ys).1, (feed_data_run ys).2) := by
  induction xs generalizing ms with
  | nil =>
    simp only [feed_data_run] at h
    injection h with h1 _
    subst h1
    simp
  | cons ev rest ih =>
    rcases hstep : feed_data_step ev with m | r
    · simp only [feed_data_run, hstep] at h
      injection h with h1 h2
      rcases hrest : feed_data_run rest with ⟨ms0, o0⟩
      rw [hrest] at h1 h2
      simp at h1 h2
      subst h2
      have := ih (show feed_data_run rest = (ms0, .running) by rw [hrest])
      simp only [List.cons_append, feed_data_run, hstep, this]
      rw [← h1]
      simp [this]
    · simp only [feed_data_run, hstep] at h
      exact absurd h (by simp)

theorem feed_data_run_terminal {ev : FeedEvent}
    {r : Except (List Char) Unit} (h : feed_data_step ev = .terminate r)
    (post : List FeedEvent) :
    feed_data_run (ev :: post) = ([], .terminated r) := by
  simp only [feed_data_run, h]

theorem feed_data_run_stops {pre : List FeedEvent} {ms : List Message}
    (hpre : feed_data_run pre = (ms, .running)) {ev : FeedEvent}
    {r : Except (List Char) Unit} (hstep : feed_data_step ev = .terminate r)
    (post : List FeedEvent) :
    feed_data_run (pre ++ ev :: post) = (ms, .terminated r) := by
  rw [feed_data_run_append hpre, feed_data_run_terminal hstep]
  simp

/-- The four subscription groups opened by feed_data. -/
inductive SubscriptionGroup
  | mango
  | oracle
  | openOrders
  | slot
deriving DecidableEq

/-- End-of-stream signal of a subscription group, as the select resolution
it produces. -/
def closeEvent : SubscriptionGroup → FeedEvent
  | .mango => .mango none
  | .oracle => .oracle none
  | .openOrders => .openOrders none
  | .slot => .slot none

/-- C1: update_chain_data normalizes a CreatedBank slot notification to a
slot update with the carried parent and status Processed, an
OptimisticConfirmation to parent none and status Confirmed, a Root to parent
none and status Rooted, and discards every other slot subtype without
touching the chain state. -/
theorem update_chain_data_slot_normalization (chain : ChainData) :
    (∀ slot parent ts,
      update_chain_data chain (.Slot (.CreatedBank slot parent ts)) =
        chain.update_slot
          { slot := slot, parent := some parent,
            status := .Processed, chain := 0 }) ∧
    (∀ slot ts,
      update_chain_data chain (.Slot (.OptimisticConfirmation slot ts)) =
        chain.update_slot
          { slot := slot, parent := none,
            status := .Confirmed, chain := 0 }) ∧
    (∀ slot ts,
      update_chain_data chain (.Slot (.Root slot ts)) =
        chain.update_slot
          { slot := slot, parent := none,
            status := .Rooted, chain := 0 }) ∧
    (∀ slot ts,
      update_chain_data chain (.Slot (.FirstShredReceived slot ts)) = chain) ∧
    (∀ slot ts,
      update_chain_data chain (.Slot (.Completed slot ts)) = chain) ∧
    (∀ slot ts stats,
      update_chain_data chain (.Slot (.Frozen slot ts stats)) = chain) ∧
    (∀ slot ts err,
      update_chain_data chain (.Slot (.Dead slot ts err)) = chain) := by
  refine ⟨fun _ _ _ => rfl, fun _ _ => rfl, fun _ _ => rfl, fun _ _ => rfl,
    fun _ _ => rfl, fun _ _ _ => rfl, fun _ _ _ => rfl⟩

/-- C4: the reconnect supervisor is still running after any number of
feed_data terminations, whatever their outcomes (Ok or Err), and invokes
feed_data again after each: there is no bound on the number of attempts and
no stopped state is ever reached. -/
theorem start_retries_unconditionally
    (outcomes : Nat → Except (List Char) Unit) (n : Nat) :
    start_run outcomes n = .running n ∧
      start_step (outcomes n) (start_run outcomes n) = .running (n + 1) := by
  have hrun : ∀ m, start_run outcomes m = .running m := by
    intro m
    induction m with
    | zero => rfl
    | succ k ih =>
      rw [start_run, ih]
      rcases outcomes k with _ | _ <;> rfl
  refine ⟨hrun n, ?_⟩
  rw [hrun n]
  rcases outcomes n with _ | _ <;> rfl

/-- C5: the idle-timeout arm of the select, firing after
websocketTimeoutSecs = 60 seconds without any event, makes the streaming
loop terminate with Ok, forwarding exactly the messages of the prefix and
nothing after. -/
theorem idle_timeout_terminates_ok :
    websocketTimeoutSecs = 60 ∧
      ∀ pre ms post, feed_data_run pre = (ms, .running) →
        feed_data_run (pre ++ FeedEvent.idleTimeout :: post) =
          (ms, .terminated (.ok ())) := by
  refine ⟨rfl, fun pre ms post hpre => ?_⟩
  refine feed_data_run_stops hpre ?_ post
  rfl

/-- Witness for C5 at a concrete session: one oracle-close-free prefix with
a Root slot event, then the idle timeout, then a CreatedBank event that is
never forwarded. -/
theorem idle_timeout_terminates_ok_witness :
    feed_data_run
        [FeedEvent.slot (some (.ok (.Root 11 0))), FeedEvent.idleTimeout,
          FeedEvent.slot (some (.ok (.CreatedBank 12 11 0)))] =
      ([Message.Slot (.Root 11 0)], .terminated (.ok ())) := by
  exact idle_timeout_terminates_ok.2
    [FeedEvent.slot (some (.ok (.Root 11 0)))]
    [Message.Slot (.Root 11 0)]
    [FeedEvent.slot (some (.ok (.CreatedBank 12 11 0)))] rfl

/-- C6: when any one of the four subscription groups signals end-of-stream,
the streaming loop terminates with Ok and forwards no further events from
the still-open groups on that session. -/
theorem group_close_terminates_ok (g : SubscriptionGroup)
    (pre : List FeedEvent) (ms : List Message) (post : List FeedEvent)
    (hpre : feed_data_run pre = (ms, .running)) :
    feed_data_run (pre ++ closeEvent g :: post) =
      (ms, .terminated (.ok ())) := by
  rcases g with _ | _ | _ | _ <;>
    · refine feed_data_run_stops hpre ?_ post
      rfl

/-- Witness for C6 at a concrete session: the slot group closes while the
mango group would still have an event, which is not forwarded. -/
theorem group_close_terminates_ok_witness :
    feed_data_run
        [FeedEvent.slot (some (.ok (.Root 3 0))), closeEvent .slot,
          FeedEvent.slot (some (.ok (.CreatedBank 4 3 0)))] =
      ([Message.Slot (.Root 3 0)], .terminated (.ok ())) := by
  exact group_close_terminates_ok .slot
    [FeedEvent.slot (some (.ok (.Root 3 0)))]
    [Message.Slot (.Root 3 0)]
    [FeedEvent.slot (some (.ok (.CreatedBank 4 3 0)))] rfl

/-- C9: the scoped program-account subscription configuration carries
exactly three filters: the 3228-byte data-size match, the constant tag
equality at offset 0, and the equality at offset 45 against the configured
open_orders_authority bytes. -/
theorem open_orders_filters_spec (config : Config) :
    (open_orders_accounts_config config).filters = some
      [ RpcFilterType.DataSize 3228,
        RpcFilterType.Memcmp
          { offset := 0
            bytes := .Base58 "AcUQf4PGf6fCHGwmpB".toList
            encoding := none },
        RpcFilterType.Memcmp
          { offset := 45
            bytes := .Bytes config.open_orders_authority.to_bytes
            encoding := none } ] := rfl

/-- Successful normalization determines all three fields: the parsed pubkey,
the context slot, and the decoded account. -/
theorem from_rpc_ok_parts {rpc : Response RpcKeyedAccount}
    {u : AccountUpdate} (h : AccountUpdate.from_rpc rpc = .ok u) :
    Pubkey.from_str rpc.value.pubkey = .ok u.pubkey ∧
      u.slot = rpc.context.slot ∧
      rpc.value.account.decode = some u.account := by
  rw [AccountUpdate.from_rpc] at h
  rcases hp : Pubkey.from_str rpc.value.pubkey with e | p
  · rw [hp] at h
    exact absurd h (by simp)
  · rw [hp] at h
    rcases hd : rpc.value.account.decode with _ | a
    · rw [hd] at h
      exact absurd h (by simp)
    · rw [hd] at h
      have hu : u = ⟨p, rpc.context.slot, a⟩ := by
        injection h with h2
        exact h2.symm
      subst hu
      exact ⟨rfl, rfl, rfl⟩

/-- C7: AccountUpdate::from_rpc fails exactly when the pubkey string does
not parse or the account payload does not decode; on success the update
carries the parsed pubkey, the context slot and the decoded account. -/
theorem from_rpc_spec (rpc : Response RpcKeyedAccount) :
    ((∃ e, AccountUpdate.from_rpc rpc = .error e) ↔
      (∃ e, Pubkey.from_str rpc.value.pubkey = .error e) ∨
        rpc.value.account.decode = none) ∧
    ∀ u, AccountUpdate.from_rpc rpc = .ok u →
      Pubkey.from_str rpc.value.pubkey = .ok u.pubkey ∧
        u.slot = rpc.context.slot ∧
        rpc.value.account.decode = some u.account := by
  refine ⟨?_, fun u h => from_rpc_ok_parts h⟩
  rcases hp : Pubkey.from_str rpc.value.pubkey with e | p
  · have hfr : AccountUpdate.from_rpc rpc = .error e := by
      rw [AccountUpdate.from_rpc, hp]
    exact ⟨fun _ => Or.inl ⟨e, rfl⟩, fun _ => ⟨e, hfr⟩⟩
  · rcases hd : rpc.value.account.decode with _ | a
    · have hfr : AccountUpdate.from_rpc rpc =
          .error "could not decode account".toList := by
        rw [AccountUpdate.from_rpc, hp, hd]
      exact ⟨fun _ => Or.inr rfl, fun _ => ⟨_, hfr⟩⟩
    · have hfr : AccountUpdate.from_rpc rpc = .ok ⟨p, rpc.context.slot, a⟩ := by
        rw [AccountUpdate.from_rpc, hp, hd]
      constructor
      · rintro ⟨e2, he2⟩
        rw [hfr] at he2
        exact absurd he2 (by simp)
      · rintro (⟨e2, he2⟩ | hnone)
        · exact absurd he2 (by simp)
        · exact absurd hnone (by simp)

/-- Witness for C7 at a concrete success: a 32-one address string and a
decodable payload. -/
theorem from_rpc_spec_witness :
    Pubkey.from_str (List.replicate 32 '1') =
        .ok { bytes := List.replicate 32 0 } ∧
      (17 : Nat) = 17 ∧
      UiAccount.decode { decoded := some { raw := [1, 2, 3] } } =
        some { raw := [1, 2, 3] } :=
  (from_rpc_spec
    { context := { slot := 17, api_version := none }
      value := { pubkey := List.replicate 32 '1'
                 account := { decoded := some { raw := [1, 2, 3] } } } }).2
    { pubkey := { bytes := List.replicate 32 0 }, slot := 17
      account := { raw := [1, 2, 3] } }
    rfl

/-- C8: the pubkey of every successfully normalized account notification
renders back to exactly the address string of the raw notification. -/
theorem from_rpc_pubkey_roundtrip (rpc : Response RpcKeyedAccount)
    (u : AccountUpdate) (h : AccountUpdate.from_rpc rpc = .ok u) :
    u.pubkey.to_string = rpc.value.pubkey :=
  to_string_of_from_str (from_rpc_ok_parts h).1

/-- Witness for C8 at a concrete notification whose address has both a
leading-one run and a nonzero tail digit. -/
theorem from_rpc_pubkey_roundtrip_witness :
    Pubkey.to_string { bytes := List.replicate 31 0 ++ [1] } =
      List.replicate 31 '1' ++ ['2'] :=
  from_rpc_pubkey_roundtrip
    { context := { slot := 3, api_version := none }
      value := { pubkey := List.replicate 31 '1' ++ ['2']
                 account := { decoded := some { raw := [] } } } }
    { pubkey := { bytes := List.replicate 31 0 ++ [1] }, slot := 3
      account := { raw := [] } }
    rfl

/-- C10: an oracle-subscription notification is rekeyed with the subscribed
oracle address before normalization, so the forwarded update carries exactly
that address (with the notification's context slot and decoded account). -/
theorem oracle_event_preserves_identity (key : Pubkey)
    (resp : Response UiAccount) (acct : AccountSharedData)
    (h32 : key.bytes.length = 32) (hlt : ∀ x ∈ key.bytes, x < 256)
    (hdec : resp.value.decode = some acct) :
    feed_data_step (.oracle (some (key, .ok resp))) =
      .emit (.Account
        { pubkey := key, slot := resp.context.slot, account := acct }) := by
  have hfs : Pubkey.from_str key.to_string = .ok key :=
    from_str_of_to_string h32 hlt
  simp only [feed_data_step, AccountUpdate.from_rpc, hfs, UiAccount.decode]
  rw [show ({ pubkey := key.to_string, account := resp.value } :
      RpcKeyedAccount).account.decoded = resp.value.decode from rfl, hdec]

/-- Witness for C10 at a concrete oracle key and payload. -/
theorem oracle_event_preserves_identity_witness :
    feed_data_step
        (.oracle (some ({ bytes := List.replicate 32 0 },
          .ok { context := { slot := 42, api_version := none }
                value := { decoded := some { raw := [9] } } }))) =
      .emit (.Account
        { pubkey := { bytes := List.replicate 32 0 }, slot := 42
          account := { raw := [9] } }) :=
  oracle_event_preserves_identity
    { bytes := List.replicate 32 0 }
    { context := { slot := 42, api_version := none }
      value := { decoded := some { raw := [9] } } }
    { raw := [9] }
    (by decide) (by decide) rfl

/-- C2: a notification whose normalization fails terminates the session
with that error; the messages forwarded on the session are exactly those of
the prefix before the failure, and nothing after the failure is forwarded.
Stated for each of the three account-carrying arms of the select. -/
theorem from_rpc_failure_aborts_session :
    (∀ pre ms rpc e post, feed_data_run pre = (ms, .running) →
      AccountUpdate.from_rpc rpc = .error e →
      feed_data_run (pre ++ FeedEvent.mango (some (.ok rpc)) :: post) =
        (ms, .terminated (.error e))) ∧
    (∀ pre ms rpc e post, feed_data_run pre = (ms, .running) →
      AccountUpdate.from_rpc rpc = .error e →
      feed_data_run (pre ++ FeedEvent.openOrders (some (.ok rpc)) :: post) =
        (ms, .terminated (.error e))) ∧
    (∀ pre ms key resp e post, feed_data_run pre = (ms, .running) →
      AccountUpdate.from_rpc
          { context := { slot := resp.context.slot, api_version := none }
            value := { pubkey := key.to_string, account := resp.value } } =
        .error e →
      feed_data_run (pre ++ FeedEvent.oracle (some (key, .ok resp)) :: post) =
        (ms, .terminated (.error e))) := by
  refine ⟨fun pre ms rpc e post hpre hbad => ?_,
    fun pre ms rpc e post hpre hbad => ?_,
    fun pre ms key resp e post hpre hbad => ?_⟩
  · refine feed_data_run_stops hpre ?_ post
    simp only [feed_data_step, hbad]
  · refine feed_data_run_stops hpre ?_ post
    simp only [feed_data_step, hbad]
  · refine feed_data_run_stops hpre ?_ post
    simp only [feed_data_step, hbad]

/-- Witness for C2: the scenario Root(5), malformed account payload,
CreatedBank(6): the Root event is forwarded, the malformed payload aborts
the session with the decode error, and the CreatedBank(6) event is never
forwarded. -/
theorem from_rpc_failure_aborts_session_witness :
    feed_data_run
        [ FeedEvent.slot (some (.ok (.Root 5 0))),
          FeedEvent.mango (some (.ok
            { context := { slot := 5, api_version := none }
              value := { pubkey := List.replicate 32 '1'
                         account := { decoded := none } } })),
          FeedEvent.slot (some (.ok (.CreatedBank 6 5 0))) ] =
      ([Message.Slot (.Root 5 0)],
        .terminated (.error "could not decode account".toList)) :=
  from_rpc_failure_aborts_session.1
    [FeedEvent.slot (some (.ok (.Root 5 0)))]
    [Message.Slot (.Root 5 0)]
    { context := { slot := 5, api_version := none }
      value := { pubkey := List.replicate 32 '1'
                 account := { decoded := none } } }
    "could not decode account".toList
    [FeedEvent.slot (some (.ok (.CreatedBank 6 5 0)))]
    rfl
    rfl

/-- Test of the CreatedBank subtype of a message, as matched by
get_next_create_bank_slot. -/
def isCreatedBankMsg : Message → Bool
  | .Slot (.CreatedBank _ _ _) => true
  | _ => false

/-- Receive completion that get_next_create_bank_slot consumes and
discards: a message that is not a CreatedBank slot event. -/
def isDiscardable : Nat × RecvOutcome → Bool
  | (_, .msg m) => !(isCreatedBankMsg m)
  | (_, .closed) => false

theorem gncbs_cons_skip {timeout t a : Nat} {m : Message}
    (ht : t ≤ timeout) (ha : a ≤ timeout)
    (hm : isCreatedBankMsg m = false) (rest : List (Nat × RecvOutcome)) :
    get_next_create_bank_slot timeout t ((a, .msg m) :: rest) =
      get_next_create_bank_slot timeout a rest := by
  have h1 : ¬ timeout < t := by omega
  have h2 : ¬ timeout < a := by omega
  rw [get_next_create_bank_slot.eq_def]
  simp only [if_neg h1, if_neg h2]
  rcases m with u | su
  · rfl
  · cases su <;> first | rfl | simp [isCreatedBankMsg] at hm

theorem gncbs_head_createbank {timeout t a s p ts : Nat}
    (ht : t ≤ timeout) (ha : a ≤ timeout)
    (rest : List (Nat × RecvOutcome)) :
    get_next_create_bank_slot timeout t
        ((a, .msg (.Slot (.CreatedBank s p ts))) :: rest) = .ok s := by
  have h1 : ¬ timeout < t := by omega
  have h2 : ¬ timeout < a := by omega
  rw [get_next_create_bank_slot.eq_def]
  simp only [if_neg h1, if_neg h2]

theorem gncbs_head_closed {timeout t a : Nat}
    (ht : t ≤ timeout) (ha : a ≤ timeout)
    (rest : List (Nat × RecvOutcome)) :
    get_next_create_bank_slot timeout t ((a, .closed) :: rest) =
      .error .channelClosed := by
  have h1 : ¬ timeout < t := by omega
  have h2 : ¬ timeout < a := by omega
  rw [get_next_create_bank_slot.eq_def]
  simp only [if_neg h1, if_neg h2]

theorem gncbs_skip_prefix :
    ∀ (pre : List (Nat × RecvOutcome)) {timeout t : Nat}, t ≤ timeout →
      (∀ x ∈ pre, isDiscardable x = true) → (∀ x ∈ pre, x.1 ≤ timeout) →
      ∀ tail, ∃ t2, t2 ≤ timeout ∧
        get_next_create_bank_slot timeout t (pre ++ tail) =
          get_next_create_bank_slot timeout t2 tail := by
  intro pre
  induction pre with
  | nil =>
    intro timeout t ht _ _ tail
    exact ⟨t, ht, rfl⟩
  | cons x rest ih =>
    intro timeout t ht hdisc htime tail
    rcases x with ⟨a, out⟩
    have ha : a ≤ timeout := htime (a, out) (by simp)
    rcases out with m | _
    · have hm : isCreatedBankMsg m = false := by
        have := hdisc (a, .msg m) (by simp)
        simpa [isDiscardable] using this
      rw [List.cons_append, gncbs_cons_skip ht ha hm]
      exact ih ha (fun y hy => hdisc y (by simp [hy]))
        (fun y hy => htime y (by simp [hy])) tail
    · have := hdisc (a, .closed) (by simp)
      simp [isDiscardable] at this

theorem gncbs_all_unmatched :
    ∀ (events : List (Nat × RecvOutcome)) (timeout t : Nat),
      (∀ x ∈ events, timeout < x.1 ∨ isDiscardable x = true) →
      get_next_create_bank_slot timeout t events = .error .timeoutExpired := by
  intro events
  induction events with
  | nil =>
    intro timeout t _
    rw [get_next_create_bank_slot.eq_def]
    by_cases h : timeout < t
    · simp only [if_pos h]
    · simp only [if_neg h]
  | cons x rest ih =>
    intro timeout t hx
    rcases x with ⟨a, out⟩
    by_cases hta : timeout < t
    · rw [get_next_create_bank_slot.eq_def]
      simp only [if_pos hta]
    · by_cases haa : timeout < a
      · rw [get_next_create_bank_slot.eq_def]
        simp only [if_neg hta, if_pos haa]
      · rcases hx (a, out) (by simp) with hlate | hdisc
        · omega
        · rcases out with m | _
          · have hm : isCreatedBankMsg m = false := by
              simpa [isDiscardable] using hdisc
            rw [gncbs_cons_skip (by omega) (by omega) hm]
            exact ih timeout a fun y hy => hx y (by simp [hy])
          · simp [isDiscardable] at hdisc

/-- C3: get_next_create_bank_slot returns the slot of the first
CreatedBank-class event on the channel, consuming and discarding every
earlier non-matching message without the deadline moving (the deadline is
measured from invocation); it fails with the timeout error when every
receive completion either arrives past the deadline or is a non-matching
message, and with the channel-closed error when the channel closes, within
the deadline, after only non-matching messages. -/
theorem get_next_create_bank_slot_spec :
    (∀ timeout (pre : List (Nat × RecvOutcome)) a s p ts rest,
      (∀ x ∈ pre, isDiscardable x = true) → (∀ x ∈ pre, x.1 ≤ timeout) →
      a ≤ timeout →
      get_next_create_bank_slot timeout 0
          (pre ++ (a, .msg (.Slot (.CreatedBank s p ts))) :: rest) =
        .ok s) ∧
    (∀ timeout (events : List (Nat × RecvOutcome)),
      (∀ x ∈ events, timeout < x.1 ∨ isDiscardable x = true) →
      get_next_create_bank_slot timeout 0 events =
        .error .timeoutExpired) ∧
    (∀ timeout (pre : List (Nat × RecvOutcome)) a rest,
      (∀ x ∈ pre, isDiscardable x = true) → (∀ x ∈ pre, x.1 ≤ timeout) →
      a ≤ timeout →
      get_next_create_bank_slot timeout 0 (pre ++ (a, .closed) :: rest) =
        .error .channelClosed) := by
  refine ⟨fun timeout pre a s p ts rest hdisc htime ha => ?_,
    fun timeout events hx => gncbs_all_unmatched events timeout 0 hx,
    fun timeout pre a rest hdisc htime ha => ?_⟩
  · obtain ⟨t2, ht2, heq⟩ :=
      gncbs_skip_prefix pre (Nat.zero_le timeout) hdisc htime
        ((a, .msg (.Slot (.CreatedBank s p ts))) :: rest)
    rw [heq, gncbs_head_createbank ht2 ha]
  · obtain ⟨t2, ht2, heq⟩ :=
      gncbs_skip_prefix pre (Nat.zero_le timeout) hdisc htime
        ((a, .closed) :: rest)
    rw [heq, gncbs_head_closed ht2 ha]

/-- Witness for C3: a 10-unit deadline; first an account message and a Root
message are discarded and the CreatedBank at time 3 is returned; second a
channel where the only CreatedBank completes at time 20 yields the timeout
error; third a close at time 2 after a Root yields the channel-closed
error. -/
theorem get_next_create_bank_slot_spec_witness :
    get_next_create_bank_slot 10 0
        [ (1, .msg (.Account
            { pubkey := { bytes := [] }, slot := 1,
              account := { raw := [] } })),
          (2, .msg (.Slot (.Root 3 0))),
          (3, .msg (.Slot (.CreatedBank 7 6 0))),
          (4, .closed) ] = .ok 7 ∧
    get_next_create_bank_slot 10 0
        [ (1, .msg (.Slot (.OptimisticConfirmation 2 0))),
          (20, .msg (.Slot (.CreatedBank 9 8 0))) ] =
      .error .timeoutExpired ∧
    get_next_create_bank_slot 10 0
        [ (1, .msg (.Slot (.Root 2 0))), (2, .closed) ] =
      .error .channelClosed :=
  ⟨get_next_create_bank_slot_spec.1 10
      [ (1, .msg (.Account
          { pubkey := { bytes := [] }, slot := 1,
            account := { raw := [] } })),
        (2, .msg (.Slot (.Root 3 0))) ]
      3 7 6 0 [(4, .closed)] (by decide) (by decide) (by decide),
    get_next_create_bank_slot_spec.2.1 10
      [ (1, .msg (.Slot (.OptimisticConfirmation 2 0))),
        (20, .msg (.Slot (.CreatedBank 9 8 0))) ] (by decide),
    get_next_create_bank_slot_spec.2.2 10
      [(1, .msg (.Slot (.Root 2 0)))] 2 [] (by decide) (by decide)
      (by decide)⟩

end WebsocketSource
